import Mathlib

/-!
# Verification of the qstr color-string library

A shallow embedding of the qstr Go package (file `qstr.go`), which handles
Quake-style strings with embedded color directives (`^N` and `^xNNN`).

Modelling conventions:
* Go `float64` arithmetic is embedded as exact rational arithmetic over `ℚ`.
* Go strings are embedded as `String` / `List Char`.
* Go's `math.Mod(x, 1.0)` (truncated remainder) is `goMod1`.
* Go's `int(x)` float-to-int conversion (truncation toward zero) is `truncQ`.
* The regex scans (`decColors`, `hexColors`, `allColors`,
  `FindAllStringSubmatch`, `ReplaceAllString`) are embedded as left-to-right
  scanners producing the same leftmost non-overlapping matches, since the
  alternation branches are disjoint on their first character.
* `strings.Replace(s, old, new, 1)` is `replaceFirst`.
* `html.EscapeString` is `escapeString` (escapes `& ' < > "`).
-/

/-- Go character class `[\dA-Fa-f]` used by the `hexColors` regex. -/
def isHexDigitGo (ch : Char) : Bool :=
  ch.isDigit || ('A' ≤ ch && ch ≤ 'F') || ('a' ≤ ch && ch ≤ 'f')

/-- Type `QStr` is a Quake-style string with optional embedded color codes,
embedding Go's `type QStr string`. -/
abbrev QStr := String

/-- Scanner for `allColors.ReplaceAllString(s, "")`: removes every leftmost
non-overlapping match of `\^(\d|x[\dA-Fa-f]{3})`, scanning left to right.
When no match starts at the current position the character is kept and the
scan resumes at the next position, exactly as the regex engine does. -/
def strippedL : List Char → List Char
  | [] => []
  | ch :: rest =>
    if ch = '^' then
      match rest with
      | [] => [ch]
      | d :: rest2 =>
        if d.isDigit then strippedL rest2
        else if d = 'x' then
          match rest2 with
          | a :: b :: e :: rest3 =>
            if isHexDigitGo a && isHexDigitGo b && isHexDigitGo e then
              strippedL rest3
            else ch :: strippedL (d :: a :: b :: e :: rest3)
          | [] => ch :: strippedL [d]
          | [a] => ch :: strippedL [d, a]
          | [a, b] => ch :: strippedL [d, a, b]
        else ch :: strippedL (d :: rest2)
    else ch :: strippedL rest
termination_by s => s.length
decreasing_by all_goals simp [List.length] <;> omega

/-- `Stripped` removes all of the color codes from the string
(Go: `func (s *QStr) Stripped() string`). -/
def QStr.Stripped (s : QStr) : String := ⟨strippedL s.data⟩

theorem strippedL_cons_ne (ch : Char) (rest : List Char) (h : ch ≠ '^') :
    strippedL (ch :: rest) = ch :: strippedL rest := by
  rw [strippedL.eq_def]
  simp [h]

theorem strippedL_nil : strippedL [] = [] := by
  rw [strippedL.eq_def]

theorem strippedL_caret_nil : strippedL ['^'] = ['^'] := by
  rw [strippedL.eq_def]
  simp

theorem strippedL_caret_digit (d : Char) (rest2 : List Char) (h : d.isDigit) :
    strippedL ('^' :: d :: rest2) = strippedL rest2 := by
  rw [strippedL.eq_def]
  simp [h]

theorem strippedL_caret_hex (a b e : Char) (rest3 : List Char)
    (h : (isHexDigitGo a && isHexDigitGo b && isHexDigitGo e) = true) :
    strippedL ('^' :: 'x' :: a :: b :: e :: rest3) = strippedL rest3 := by
  rw [strippedL.eq_def]
  simp [h]

theorem strippedL_caret_hex_fail (a b e : Char) (rest3 : List Char)
    (h : ¬ (isHexDigitGo a && isHexDigitGo b && isHexDigitGo e) = true) :
    strippedL ('^' :: 'x' :: a :: b :: e :: rest3) =
      '^' :: strippedL ('x' :: a :: b :: e :: rest3) := by
  rw [strippedL.eq_def]
  simp [h]

theorem strippedL_caret_other (d : Char) (rest2 : List Char)
    (hd : ¬ d.isDigit = true) (hx : d ≠ 'x') :
    strippedL ('^' :: d :: rest2) = '^' :: strippedL (d :: rest2) := by
  rw [strippedL.eq_def]
  simp [hd, hx]

theorem strippedL_caret_x_nil : strippedL ['^', 'x'] = '^' :: strippedL ['x'] := by
  rw [strippedL.eq_def]
  simp

theorem strippedL_caret_x_one (a : Char) :
    strippedL ['^', 'x', a] = '^' :: strippedL ['x', a] := by
  rw [strippedL.eq_def]
  simp

theorem strippedL_caret_x_two (a b : Char) :
    strippedL ['^', 'x', a, b] = '^' :: strippedL ['x', a, b] := by
  rw [strippedL.eq_def]
  simp

theorem strippedL_sublist : ∀ s : List Char, List.Sublist (strippedL s) s := by
  have H : ∀ n, ∀ s : List Char, s.length ≤ n → List.Sublist (strippedL s) s := by
    intro n
    induction n with
    | zero =>
      intro s hs
      have : s = [] := List.eq_nil_of_length_eq_zero (Nat.le_zero.mp hs)
      subst this
      simp [strippedL_nil]
    | succ n ih =>
      intro s hs
      match s with
      | [] => simp [strippedL_nil]
      | ch :: rest =>
        by_cases hch : ch = '^'
        · subst hch
          match rest with
          | [] => simp [strippedL_caret_nil]
          | d :: rest2 =>
            by_cases hd : d.isDigit
            · rw [strippedL_caret_digit d rest2 hd]
              refine (ih rest2 ?_).trans ?_
              · simp at hs; omega
              · exact ((List.sublist_cons_self d rest2).trans
                  (List.sublist_cons_self '^' (d :: rest2)))
            · by_cases hx : d = 'x'
              · subst hx
                match rest2 with
                | [] =>
                  rw [strippedL_caret_x_nil]
                  refine List.Sublist.cons₂ '^' (ih ['x'] ?_)
                  simp at hs ⊢; omega
                | [a] =>
                  rw [strippedL_caret_x_one]
                  refine List.Sublist.cons₂ '^' (ih ['x', a] ?_)
                  simp at hs ⊢; omega
                | [a, b] =>
                  rw [strippedL_caret_x_two]
                  refine List.Sublist.cons₂ '^' (ih ['x', a, b] ?_)
                  simp at hs ⊢; omega
                | a :: b :: e :: rest3 =>
                  by_cases hhex : (isHexDigitGo a && isHexDigitGo b && isHexDigitGo e) = true
                  · rw [strippedL_caret_hex a b e rest3 hhex]
                    refine (ih rest3 ?_).trans ?_
                    · simp at hs; omega
                    · have h5 : List.Sublist rest3 (['^', 'x', a, b, e] ++ rest3) :=
                        List.sublist_append_right ['^', 'x', a, b, e] rest3
                      simpa using h5
                  · rw [strippedL_caret_hex_fail a b e rest3 hhex]
                    refine List.Sublist.cons₂ '^' (ih ('x' :: a :: b :: e :: rest3) ?_)
                    simp at hs ⊢; omega
              · rw [strippedL_caret_other d rest2 hd hx]
                refine List.Sublist.cons₂ '^' (ih (d :: rest2) ?_)
                simp at hs ⊢; omega
        · rw [strippedL_cons_ne ch rest hch]
          refine List.Sublist.cons₂ ch (ih rest ?_)
          simp at hs; omega
  exact fun s => H s.length s le_rfl

theorem strippedL_no_caret (s : List Char) (h : '^' ∉ s) : strippedL s = s := by
  induction s with
  | nil => simp [strippedL]
  | cons ch rest ihr =>
    have hch : ch ≠ '^' := by
      intro hc; exact h (by simp [hc])
    rw [strippedL_cons_ne ch rest hch,
      ihr (fun hm => h (List.mem_cons_of_mem ch hm))]

/-- C2: `Stripped` removes every (leftmost, non-overlapping) color-code
directive and keeps all other characters unchanged in order: the result is a
sublist of the input, and the three named examples strip to `"Antibody"`. -/
theorem stripped_spec :
    QStr.Stripped "Anti^x444body" = "Antibody" ∧
    QStr.Stripped "^7Antibody" = "Antibody" ∧
    QStr.Stripped "Antibody^7" = "Antibody" ∧
    ∀ s : QStr, List.Sublist (QStr.Stripped s).data s.data := by
  refine ⟨?_, ?_, ?_, fun s => strippedL_sublist s.data⟩ <;>
    · show String.mk (strippedL _) = _
      simp [strippedL, isHexDigitGo]

/-- C8 counterexample: `Stripped` is not idempotent.  On `"^^77"` one pass
yields `"^7"` (removing the inner `^7` joins the leading `^` with the final
`7`, creating a new directive), and a second pass yields `""`. -/
theorem stripped_not_idempotent :
    QStr.Stripped "^^77" = "^7" ∧
    QStr.Stripped (QStr.Stripped "^^77") = "" ∧
    QStr.Stripped (QStr.Stripped "^^77") ≠ QStr.Stripped "^^77" := by
  have h1 : QStr.Stripped "^^77" = "^7" := by
    show String.mk (strippedL _) = _
    simp [strippedL, isHexDigitGo]
  have h2 : QStr.Stripped "^7" = "" := by
    show String.mk (strippedL _) = _
    simp [strippedL]
  refine ⟨h1, by rw [h1, h2], by rw [h1, h2]; decide⟩

/-- C8 amended: on strings that contain no `'^'` character, `Stripped` is the
identity and is therefore idempotent.  (In general removing a directive can
create a new one, so idempotence fails; see the counterexample.) -/
theorem stripped_idempotent_no_caret (s : QStr) (h : '^' ∉ s.data) :
    QStr.Stripped (QStr.Stripped s) = QStr.Stripped s ∧ QStr.Stripped s = s := by
  have h1 : QStr.Stripped s = s := by
    show (⟨strippedL s.data⟩ : String) = s
    rw [strippedL_no_caret s.data h]
  exact ⟨by simp only [h1], h1⟩

theorem stripped_idempotent_no_caret_witness :
    '^' ∉ ("Antibody" : QStr).data ∧
    (QStr.Stripped (QStr.Stripped "Antibody") = QStr.Stripped "Antibody" ∧
      QStr.Stripped "Antibody" = "Antibody") :=
  ⟨by decide, stripped_idempotent_no_caret "Antibody" (by decide)⟩

/-- An RGB color; `R`, `G`, `B` are in the range `[0, 1]`
(Go: `type RGBColor struct { R, G, B float64 }`). -/
structure RGBColor where
  R : ℚ
  G : ℚ
  B : ℚ
deriving DecidableEq

/-- An HSL color (Go: `type HSLColor struct { H, S, L float64 }`). -/
structure HSLColor where
  H : ℚ
  S : ℚ
  L : ℚ
deriving DecidableEq

/-- Go's `int(x)` conversion from `float64`: truncation toward zero. -/
def truncQ (x : ℚ) : ℤ := if 0 ≤ x then ⌊x⌋ else ⌈x⌉

/-- Go's `math.Mod(x, 1.0)`: the truncated remainder `x - trunc(x)`. -/
def goMod1 (x : ℚ) : ℚ := x - truncQ x

/-- The `math.Mod(·, 1.0)` then `if < 0 then + 1` normalization pattern used in
both `RGBColor.HSL` and the helper `v` of the source. -/
def normHue (x : ℚ) : ℚ :=
  let h1 := goMod1 x
  if h1 < 0 then h1 + 1 else h1

/-- Go `NewRGBColorFrom255`: scales `[0,255]` channels down to `[0,1]`. -/
def NewRGBColorFrom255 (r g b : ℚ) : RGBColor := ⟨r / 255, g / 255, b / 255⟩

/-- Value of a single hexadecimal digit character; 0 for anything else. -/
def hexDigitVal (ch : Char) : ℤ :=
  if ch.isDigit then (ch.toNat : ℤ) - 48
  else if 'a' ≤ ch ∧ ch ≤ 'f' then (ch.toNat : ℤ) - 87
  else if 'A' ≤ ch ∧ ch ≤ 'F' then (ch.toNat : ℤ) - 55
  else 0

/-- Go `strconv.ParseInt(fmt.Sprintf("%s%s", d, d), 16, 0)` with the error
discarded, for a single-character input `d`: a hex digit of value `v` parses
as the byte `0xvv = 17*v`; any other character fails to parse and yields 0
(Go returns 0 together with the discarded error). -/
def parseHexPair (ch : Char) : ℤ :=
  if isHexDigitGo ch then 17 * hexDigitVal ch else 0

/-- `HexToRGB` converts a sequence of three hexadecimal characters into an
`RGBColor` (Go: `func HexToRGB(r string, g string, b string) (c RGBColor)`,
specialized to the single-character arguments it is used with). -/
def HexToRGB (r g b : Char) : RGBColor :=
  NewRGBColorFrom255 (parseHexPair r) (parseHexPair g) (parseHexPair b)

/-- The decimal digit character for a value in `0`–`9`. -/
def digitCharGo (m : ℕ) : Char :=
  if m = 0 then '0' else if m = 1 then '1' else if m = 2 then '2'
  else if m = 3 then '3' else if m = 4 then '4' else if m = 5 then '5'
  else if m = 6 then '6' else if m = 7 then '7' else if m = 8 then '8' else '9'

/-- Decimal digit string of a natural number, most significant first.
Fuel-structured so that it reduces in the kernel; `natDigitsAux n n []` is
fully evaluated for every `n ≥ 1`. -/
def natDigitsAux : ℕ → ℕ → List Char → List Char
  | 0, _, acc => acc
  | fuel + 1, n, acc =>
    if n = 0 then acc else natDigitsAux fuel (n / 10) (digitCharGo (n % 10) :: acc)

/-- Decimal rendering of a natural number, as Go `fmt` `%d` prints it. -/
def natDigits (n : ℕ) : List Char := if n = 0 then ['0'] else natDigitsAux n n []

/-- Decimal rendering of an integer, as Go `fmt` `%d` prints it. -/
def intStr (n : ℤ) : List Char :=
  if n < 0 then '-' :: natDigits n.natAbs else natDigits n.natAbs

/-- `SpanStr` converts an `RGBColor` into a string representing an HTML span
with inline coloring (Go: `fmt.Sprintf("<span style=\"color:rgb(%d,%d,%d)\">",
int(c.R*255.0), int(c.G*255.0), int(c.B*255.0))`). -/
def RGBColor.SpanStr (c : RGBColor) : List Char :=
  "<span style=\"color:rgb(".data ++ intStr (truncQ (c.R * 255)) ++ [','] ++
    intStr (truncQ (c.G * 255)) ++ [','] ++ intStr (truncQ (c.B * 255)) ++
    ")\">".data

/-- The local `maxC` of `RGBColor.HSL`: `math.Max(math.Max(c.R, c.G), c.B)`. -/
def maxC (c : RGBColor) : ℚ := max (max c.R c.G) c.B

/-- The local `minC` of `RGBColor.HSL`: `math.Min(math.Min(c.R, c.G), c.B)`. -/
def minC (c : RGBColor) : ℚ := min (min c.R c.G) c.B

/-- The local `l` of `RGBColor.HSL`: `(minC + maxC) / 2.0`. -/
def rgbL (c : RGBColor) : ℚ := (minC c + maxC c) / 2

/-- The local `s` of `RGBColor.HSL` (chromatic case). -/
def rgbS (c : RGBColor) : ℚ :=
  if rgbL c ≤ 1/2 then (maxC c - minC c) / (maxC c + minC c)
  else (maxC c - minC c) / (2 - maxC c - minC c)

/-- The local `h` of `RGBColor.HSL` before normalization, computed from
`rc`, `gc`, `bc` by the three-way branch on which channel holds the max. -/
def rgbH0 (c : RGBColor) : ℚ :=
  if c.R = maxC c then
    (maxC c - c.B) / (maxC c - minC c) - (maxC c - c.G) / (maxC c - minC c)
  else if c.G = maxC c then
    2 + (maxC c - c.R) / (maxC c - minC c) - (maxC c - c.B) / (maxC c - minC c)
  else
    4 + (maxC c - c.G) / (maxC c - minC c) - (maxC c - c.R) / (maxC c - minC c)

/-- `HSL` converts an `RGBColor` into an `HSLColor`
(ported from Python's colorsys module, like the Go source). -/
def RGBColor.HSL (c : RGBColor) : HSLColor :=
  if minC c = maxC c then ⟨0, 0, rgbL c⟩
  else ⟨normHue (rgbH0 c / 6), rgbS c, rgbL c⟩

/-- The four-region body of the hue-interpolation helper `v`, after the hue has
been wrapped into `[0,1)`. -/
def vBody (m1 m2 hue : ℚ) : ℚ :=
  if hue < 1/6 then m1 + (m2 - m1) * hue * 6
  else if hue < 1/2 then m2
  else if hue < 2/3 then m1 + (m2 - m1) * (2/3 - hue) * 6
  else m1

/-- The hue-interpolation helper `v(m1, m2, hue)` of the source: wraps the hue
with `math.Mod(·, 1.0)` (plus the negative fixup) and applies the
piecewise-linear reconstruction with breakpoints `1/6`, `1/2`, `2/3`. -/
def v (m1 m2 hue : ℚ) : ℚ := vBody m1 m2 (normHue hue)

/-- The local `m2` of `HSLColor.RGB` (chromatic case). -/
def hslM2 (c : HSLColor) : ℚ :=
  if c.L ≤ 1/2 then c.L * (1 + c.S) else c.L + c.S - c.L * c.S

/-- The local `m1` of `HSLColor.RGB`: `2.0*c.L - m2`. -/
def hslM1 (c : HSLColor) : ℚ := 2 * c.L - hslM2 c

/-- `RGB` converts an `HSLColor` to an `RGBColor`
(ported from Python's colorsys module, like the Go source). -/
def HSLColor.RGB (c : HSLColor) : RGBColor :=
  if c.S = 0 then ⟨c.L, c.L, c.L⟩
  else
    ⟨v (hslM1 c) (hslM2 c) (c.H + 1/3), v (hslM1 c) (hslM2 c) c.H,
      v (hslM1 c) (hslM2 c) (c.H - 1/3)⟩

/-- `CapLightness` returns an RGB color trimmed to have a lightness value
between `floor` and `ceiling` (Go: `func (c *RGBColor) CapLightness`). -/
def RGBColor.CapLightness (c : RGBColor) (floor ceiling : ℚ) : RGBColor :=
  if floor ≥ ceiling ∨ floor < 0 ∨ ceiling > 1 then c
  else if (c.HSL).L < floor then HSLColor.RGB ⟨(c.HSL).H, (c.HSL).S, floor⟩
  else if (c.HSL).L > ceiling then HSLColor.RGB ⟨(c.HSL).H, (c.HSL).S, ceiling⟩
  else c

/-- C4: whenever the bounds are invalid (`floor ≥ ceiling`, `floor < 0`, or
`ceiling > 1`), `CapLightness` returns the input color exactly unchanged; it is
a total function, so no error is ever signalled. -/
theorem capLightness_invalid_bounds (c : RGBColor) (fl ce : ℚ)
    (h : fl ≥ ce ∨ fl < 0 ∨ ce > 1) : c.CapLightness fl ce = c := by
  rw [RGBColor.CapLightness, if_pos h]

theorem capLightness_invalid_bounds_witness :
    ((-1 : ℚ) < 0 ∨ ((0:ℚ) ≥ 1 ∨ (1:ℚ) > 1)) ∧
    RGBColor.CapLightness ⟨0, 0, 0⟩ (-1) 1 = ⟨0, 0, 0⟩ :=
  ⟨Or.inl (by norm_num),
    capLightness_invalid_bounds ⟨0, 0, 0⟩ (-1) 1 (Or.inr (Or.inl (by norm_num)))⟩

/-- The per-channel value `HexToRGB` produces: `0xdd/255` for a hex digit of
value `d`, and 0 for a non-hex-digit character. -/
def hexChannel (ch : Char) : ℚ :=
  if isHexDigitGo ch then (17 * hexDigitVal ch : ℚ) / 255 else 0

/-- C5: for every triple of characters, `HexToRGB` yields per-channel values
`0xdd/255` for valid hex digits and 0 for invalid characters, never failing;
in particular `HexToRGB "4" "4" "4"` has every channel `0x44/255`. -/
theorem hexToRGB_spec :
    (∀ r g b : Char, HexToRGB r g b = ⟨hexChannel r, hexChannel g, hexChannel b⟩) ∧
    HexToRGB '4' '4' '4' = ⟨(68 : ℚ)/255, (68 : ℚ)/255, (68 : ℚ)/255⟩ := by
  constructor
  · intro r g b
    show NewRGBColorFrom255 _ _ _ = _
    rw [NewRGBColorFrom255]
    congr 1 <;>
      · rw [parseHexPair, hexChannel]
        split_ifs <;> simp
  · have h4 : parseHexPair '4' = 68 := by decide
    show NewRGBColorFrom255 _ _ _ = _
    rw [NewRGBColorFrom255, h4]
    norm_num

theorem truncQ_eq_floor (x : ℚ) (h : 0 ≤ x) : truncQ x = ⌊x⌋ := by
  rw [truncQ, if_pos h]

/-- C7 counterexample: the HTML span bytes are not rounded to nearest.  A
channel of `0.5` gives `int(0.5*255.0) = int(127.5) = 127` (Go truncates), not
`round(127.5) = 128`: the span for the mid-grey color shows `rgb(127,127,127)`. -/
theorem spanStr_not_rounded :
    RGBColor.SpanStr ⟨1/2, 1/2, 1/2⟩ = "<span style=\"color:rgb(127,127,127)\">".data ∧
    RGBColor.SpanStr ⟨1/2, 1/2, 1/2⟩ ≠ "<span style=\"color:rgb(128,128,128)\">".data := by
  have h : truncQ ((1/2 : ℚ) * 255) = 127 := by
    rw [truncQ_eq_floor _ (by norm_num)]
    rw [show ((1/2 : ℚ) * 255) = 255/2 by norm_num]
    rw [Int.floor_eq_iff]
    constructor <;> norm_num
  have h2 : RGBColor.SpanStr ⟨1/2, 1/2, 1/2⟩ =
      "<span style=\"color:rgb(127,127,127)\">".data := by
    show "<span style=\"color:rgb(".data ++ intStr (truncQ ((1/2 : ℚ) * 255)) ++ [','] ++
      intStr (truncQ ((1/2 : ℚ) * 255)) ++ [','] ++ intStr (truncQ ((1/2 : ℚ) * 255)) ++
      ")\">".data = _
    rw [h]
    decide
  exact ⟨h2, by rw [h2]; decide⟩

/-- C7 amended: the HTML span renders each channel as the byte
`floor(channel*255)` — Go's `int()` truncation toward zero, which is `floor`
for the non-negative channels — not `round(channel*255)`; in particular a
channel of `0.5` renders as `127`, not `128`. -/
theorem spanStr_truncates (c : RGBColor) (hR : 0 ≤ c.R) (hG : 0 ≤ c.G)
    (hB : 0 ≤ c.B) :
    c.SpanStr = "<span style=\"color:rgb(".data ++ intStr ⌊c.R * 255⌋ ++ [','] ++
      intStr ⌊c.G * 255⌋ ++ [','] ++ intStr ⌊c.B * 255⌋ ++ ")\">".data := by
  rw [RGBColor.SpanStr,
    truncQ_eq_floor _ (mul_nonneg hR (by norm_num)),
    truncQ_eq_floor _ (mul_nonneg hG (by norm_num)),
    truncQ_eq_floor _ (mul_nonneg hB (by norm_num))]

theorem spanStr_truncates_witness :
    (0 : ℚ) ≤ (1/4 : ℚ) ∧
    RGBColor.SpanStr ⟨1/4, 1/4, 1/4⟩ =
      "<span style=\"color:rgb(".data ++ intStr ⌊(1/4 : ℚ) * 255⌋ ++ [','] ++
        intStr ⌊(1/4 : ℚ) * 255⌋ ++ [','] ++ intStr ⌊(1/4 : ℚ) * 255⌋ ++
        ")\">".data :=
  ⟨by norm_num, spanStr_truncates ⟨1/4, 1/4, 1/4⟩ (by norm_num) (by norm_num) (by norm_num)⟩

/-- C10: when `CapLightness` actually clamps (valid bounds, lightness outside
`[floor, ceiling]`), the result is exactly `HSLColor.RGB` applied to the HSL
triple whose `H` and `S` are those of `RGBColor.HSL` of the input and whose `L`
is the clamped bound: hue and saturation pass through untouched. -/
theorem capLightness_frame (c : RGBColor) (fl ce : ℚ) (h0 : 0 ≤ fl)
    (h1 : fl < ce) (h2 : ce ≤ 1) :
    (c.HSL.L < fl → c.CapLightness fl ce = HSLColor.RGB ⟨c.HSL.H, c.HSL.S, fl⟩) ∧
    (ce < c.HSL.L → c.CapLightness fl ce = HSLColor.RGB ⟨c.HSL.H, c.HSL.S, ce⟩) := by
  have hguard : ¬ (fl ≥ ce ∨ fl < 0 ∨ ce > 1) := by
    push_neg
    exact ⟨lt_of_lt_of_le h1 le_rfl, h0, h2⟩
  constructor
  · intro hlow
    rw [RGBColor.CapLightness, if_neg hguard]
    simp only [if_pos hlow]
  · intro hhigh
    have hnotlow : ¬ c.HSL.L < fl := by
      push_neg
      exact le_of_lt (lt_trans h1 hhigh)
    rw [RGBColor.CapLightness, if_neg hguard]
    simp only [if_neg hnotlow, if_pos (show c.HSL.L > ce from hhigh)]

theorem capLightness_frame_witness :
    (0 : ℚ) ≤ 1/2 ∧ (1/2 : ℚ) < 1 ∧ (1 : ℚ) ≤ 1 ∧
    (RGBColor.HSL ⟨0, 0, 0⟩).L < 1/2 ∧
    RGBColor.CapLightness ⟨0, 0, 0⟩ (1/2) 1 =
      HSLColor.RGB ⟨(RGBColor.HSL ⟨0, 0, 0⟩).H, (RGBColor.HSL ⟨0, 0, 0⟩).S, 1/2⟩ := by
  have hL : RGBColor.HSL ⟨0, 0, 0⟩ = ⟨0, 0, 0⟩ := by
    rw [RGBColor.HSL]
    norm_num [minC, maxC, rgbL]
  refine ⟨by norm_num, by norm_num, le_rfl, ?_, ?_⟩
  · rw [hL]; norm_num
  · exact (capLightness_frame ⟨0, 0, 0⟩ (1/2) 1 (by norm_num) (by norm_num) le_rfl).1
      (by rw [hL]; norm_num)

theorem normHue_eq_self (x : ℚ) (h0 : 0 ≤ x) (h1 : x < 1) : normHue x = x := by
  simp only [normHue, goMod1, truncQ, if_pos h0]
  rw [show ⌊x⌋ = 0 from Int.floor_eq_zero_iff.mpr ⟨h0, h1⟩]
  simp [not_lt.mpr h0]

theorem normHue_neg_add_one (x : ℚ) (h0 : -1 < x) (h1 : x < 0) :
    normHue x = x + 1 := by
  simp only [normHue, goMod1, truncQ, if_neg (not_le.mpr h1)]
  rw [show ⌈x⌉ = 0 from Int.ceil_eq_zero_iff.mpr ⟨h0, le_of_lt h1⟩]
  simp [h1]

theorem normHue_sub_one (x : ℚ) (h0 : 1 ≤ x) (h1 : x < 2) : normHue x = x - 1 := by
  have hx0 : (0 : ℚ) ≤ x := le_trans zero_le_one h0
  simp only [normHue, goMod1, truncQ, if_pos hx0]
  rw [show ⌊x⌋ = 1 from Int.floor_eq_iff.mpr ⟨by exact_mod_cast h0, by push_cast; linarith⟩]
  rw [if_neg (by push_cast; linarith)]
  push_cast
  ring

theorem normHue_mem (x : ℚ) : 0 ≤ normHue x ∧ normHue x < 1 := by
  simp only [normHue, goMod1, truncQ]
  by_cases h0 : 0 ≤ x
  · rw [if_pos h0]
    have hf1 : 0 ≤ x - (⌊x⌋ : ℚ) := by
      have := Int.floor_le x
      linarith
    have hf2 : x - (⌊x⌋ : ℚ) < 1 := by
      have := Int.lt_floor_add_one x
      linarith
    rw [if_neg (not_lt.mpr hf1)]
    exact ⟨hf1, hf2⟩
  · rw [if_neg h0]
    have hc1 : x - (⌈x⌉ : ℚ) ≤ 0 := by
      have := Int.le_ceil x
      linarith
    have hc2 : -1 < x - (⌈x⌉ : ℚ) := by
      have := Int.ceil_lt_add_one x
      linarith
    by_cases hneg : x - (⌈x⌉ : ℚ) < 0
    · rw [if_pos hneg]
      constructor <;> linarith
    · rw [if_neg hneg]
      constructor <;> linarith

theorem vBody_seg1 (m1 m2 h : ℚ) (hu : h < 1/6) :
    vBody m1 m2 h = m1 + (m2 - m1) * h * 6 := by
  rw [vBody, if_pos hu]

theorem vBody_m2 (m1 m2 h : ℚ) (hl : 1/6 ≤ h) (hu : h < 1/2) :
    vBody m1 m2 h = m2 := by
  rw [vBody, if_neg (not_lt.mpr hl), if_pos hu]

theorem vBody_seg3 (m1 m2 h : ℚ) (hl : 1/2 ≤ h) (hu : h < 2/3) :
    vBody m1 m2 h = m1 + (m2 - m1) * (2/3 - h) * 6 := by
  rw [vBody, if_neg (not_lt.mpr (le_trans (by norm_num) hl)),
    if_neg (not_lt.mpr hl), if_pos hu]

theorem vBody_m1 (m1 m2 h : ℚ) (hl : 2/3 ≤ h) : vBody m1 m2 h = m1 := by
  rw [vBody, if_neg (not_lt.mpr (le_trans (by norm_num) hl)),
    if_neg (not_lt.mpr (le_trans (by norm_num) hl)), if_neg (not_lt.mpr hl)]

theorem vBody_mem (m1 m2 h : ℚ) (hm : m1 ≤ m2) (h0 : 0 ≤ h) :
    m1 ≤ vBody m1 m2 h ∧ vBody m1 m2 h ≤ m2 := by
  rw [vBody]
  split_ifs with h1 h2 h3
  · constructor <;> nlinarith
  · exact ⟨hm, le_rfl⟩
  · constructor <;> nlinarith
  · exact ⟨le_rfl, hm⟩

theorem v_mem (m1 m2 hue : ℚ) (hm : m1 ≤ m2) :
    m1 ≤ v m1 m2 hue ∧ v m1 m2 hue ≤ m2 := by
  rw [v]
  exact vBody_mem m1 m2 (normHue hue) hm (normHue_mem hue).1

/-- The `[0,1]` channel-range invariant of `RGBColor`. -/
def inRange (c : RGBColor) : Prop :=
  0 ≤ c.R ∧ c.R ≤ 1 ∧ 0 ≤ c.G ∧ c.G ≤ 1 ∧ 0 ≤ c.B ∧ c.B ≤ 1

theorem le_maxC (c : RGBColor) : c.R ≤ maxC c ∧ c.G ≤ maxC c ∧ c.B ≤ maxC c :=
  ⟨le_trans (le_max_left c.R c.G) (le_max_left _ c.B),
    le_trans (le_max_right c.R c.G) (le_max_left _ c.B), le_max_right _ c.B⟩

theorem minC_le (c : RGBColor) : minC c ≤ c.R ∧ minC c ≤ c.G ∧ minC c ≤ c.B :=
  ⟨le_trans (min_le_left _ c.B) (min_le_left c.R c.G),
    le_trans (min_le_left _ c.B) (min_le_right c.R c.G), min_le_right _ c.B⟩

theorem minC_le_maxC (c : RGBColor) : minC c ≤ maxC c :=
  le_trans (minC_le c).1 (le_maxC c).1

theorem maxC_cases (c : RGBColor) :
    maxC c = c.R ∨ maxC c = c.G ∨ maxC c = c.B := by
  rw [maxC]
  rcases max_choice (max c.R c.G) c.B with h | h
  · rcases max_choice c.R c.G with h2 | h2
    · exact Or.inl (by rw [h, h2])
    · exact Or.inr (Or.inl (by rw [h, h2]))
  · exact Or.inr (Or.inr h)

theorem minC_nonneg (c : RGBColor) (hc : inRange c) : 0 ≤ minC c :=
  le_min (le_min hc.1 hc.2.2.1) hc.2.2.2.2.1

theorem maxC_le_one (c : RGBColor) (hc : inRange c) : maxC c ≤ 1 :=
  max_le (max_le hc.2.1 hc.2.2.2.1) hc.2.2.2.2.2

theorem rgbL_mem (c : RGBColor) (hc : inRange c) : 0 ≤ rgbL c ∧ rgbL c ≤ 1 := by
  rw [rgbL]
  have h1 := minC_nonneg c hc
  have h2 := maxC_le_one c hc
  have h3 := minC_le_maxC c
  constructor <;> nlinarith

theorem hslM2_of_HSL (c : RGBColor) (H : ℚ) (hlt : minC c < maxC c)
    (h0 : 0 ≤ minC c) (h1 : maxC c ≤ 1) :
    hslM2 ⟨H, rgbS c, rgbL c⟩ = maxC c := by
  have hsum : minC c + maxC c ≠ 0 := (show (0:ℚ) < minC c + maxC c by nlinarith).ne'
  rw [hslM2]
  show (if rgbL c ≤ 1/2 then rgbL c * (1 + rgbS c)
    else rgbL c + rgbS c - rgbL c * rgbS c) = maxC c
  rw [rgbS, rgbL]
  split_ifs with hl
  · have hcancel : (minC c + maxC c) * (minC c + maxC c)⁻¹ = 1 :=
      mul_inv_cancel₀ hsum
    rw [div_eq_mul_inv, div_eq_mul_inv]
    linear_combination ((maxC c - minC c)/2) * hcancel
  · have hden : 2 - maxC c - minC c ≠ 0 := by
      have h3 : minC c < 1 := lt_of_lt_of_le hlt h1
      intro hz
      nlinarith
    have hcancel : (2 - maxC c - minC c) * (2 - maxC c - minC c)⁻¹ = 1 :=
      mul_inv_cancel₀ hden
    rw [div_eq_mul_inv, div_eq_mul_inv]
    linear_combination ((maxC c - minC c)/2) * hcancel

theorem hslM1_of_HSL (c : RGBColor) (H : ℚ) (hlt : minC c < maxC c)
    (h0 : 0 ≤ minC c) (h1 : maxC c ≤ 1) :
    hslM1 ⟨H, rgbS c, rgbL c⟩ = minC c := by
  rw [hslM1, hslM2_of_HSL c H hlt h0 h1]
  show 2 * rgbL c - maxC c = minC c
  rw [rgbL]
  ring

theorem rgbS_pos (c : RGBColor) (hlt : minC c < maxC c) (h0 : 0 ≤ minC c)
    (h1 : maxC c ≤ 1) : 0 < rgbS c := by
  rw [rgbS]
  split_ifs with hl
  · exact div_pos (sub_pos.mpr hlt) (by nlinarith)
  · refine div_pos (sub_pos.mpr hlt) ?_
    have h3 : minC c < 1 := lt_of_lt_of_le hlt h1
    nlinarith

theorem rgbS_le_one (c : RGBColor) (hlt : minC c < maxC c) (h0 : 0 ≤ minC c)
    (h1 : maxC c ≤ 1) : rgbS c ≤ 1 := by
  rw [rgbS]
  split_ifs with hl
  · rw [div_le_one (by nlinarith)]
    nlinarith
  · have h3 : minC c < 1 := lt_of_lt_of_le hlt h1
    rw [div_le_one (by nlinarith)]
    nlinarith

theorem HSL_L_eq (c : RGBColor) : (RGBColor.HSL c).L = rgbL c := by
  rw [RGBColor.HSL]
  split_ifs <;> rfl

theorem HSL_H_mem (c : RGBColor) :
    0 ≤ (RGBColor.HSL c).H ∧ (RGBColor.HSL c).H < 1 := by
  rw [RGBColor.HSL]
  split_ifs
  · exact ⟨le_rfl, one_pos⟩
  · exact normHue_mem _

theorem HSL_S_mem (c : RGBColor) (hc : inRange c) :
    0 ≤ (RGBColor.HSL c).S ∧ (RGBColor.HSL c).S ≤ 1 := by
  rw [RGBColor.HSL]
  split_ifs with hmm
  · exact ⟨le_rfl, zero_le_one⟩
  · have hlt : minC c < maxC c := lt_of_le_of_ne (minC_le_maxC c) hmm
    exact ⟨le_of_lt (rgbS_pos c hlt (minC_nonneg c hc) (maxC_le_one c hc)),
      rgbS_le_one c hlt (minC_nonneg c hc) (maxC_le_one c hc)⟩

theorem hslM1_le_hslM2 (h : HSLColor) (hS0 : 0 ≤ h.S) (hL0 : 0 ≤ h.L)
    (hL1 : h.L ≤ 1) : hslM1 h ≤ hslM2 h := by
  rw [hslM1, hslM2]
  split_ifs with hl
  · nlinarith
  · nlinarith

theorem hslM1_add_hslM2 (h : HSLColor) : hslM1 h + hslM2 h = 2 * h.L := by
  rw [hslM1]
  ring

theorem hslM2_le_one (h : HSLColor) (hS0 : 0 ≤ h.S) (hS1 : h.S ≤ 1)
    (hL0 : 0 ≤ h.L) (hL1 : h.L ≤ 1) : hslM2 h ≤ 1 := by
  rw [hslM2]
  split_ifs with hl
  · nlinarith
  · nlinarith

theorem hslM1_nonneg (h : HSLColor) (hS0 : 0 ≤ h.S) (hS1 : h.S ≤ 1)
    (hL0 : 0 ≤ h.L) (hL1 : h.L ≤ 1) : 0 ≤ hslM1 h := by
  rw [hslM1, hslM2]
  split_ifs with hl
  · nlinarith
  · nlinarith

theorem minmax_sum (mn mx a : ℚ) (h1 : mn ≤ a) (h2 : a ≤ mx) (t : RGBColor)
    (ht : t = ⟨a, mx, mn⟩ ∨ t = ⟨mx, a, mn⟩ ∨ t = ⟨mx, mn, a⟩ ∨
      t = ⟨a, mn, mx⟩ ∨ t = ⟨mn, a, mx⟩ ∨ t = ⟨mn, mx, a⟩) :
    minC t + maxC t = mn + mx := by
  have hmm : mn ≤ mx := le_trans h1 h2
  rcases ht with h | h | h | h | h | h <;> subst h <;> rw [minC, maxC]
  · rw [show min a mx = a from min_eq_left h2,
      show min a mn = mn from min_eq_right h1,
      show max a mx = mx from max_eq_right h2,
      show max mx mn = mx from max_eq_left hmm]
  · rw [show min mx a = a from min_eq_right h2,
      show min a mn = mn from min_eq_right h1,
      show max mx a = mx from max_eq_left h2,
      show max mx mn = mx from max_eq_left hmm]
  · rw [show min mx mn = mn from min_eq_right hmm,
      show min mn a = mn from min_eq_left h1,
      show max mx mn = mx from max_eq_left hmm,
      show max mx a = mx from max_eq_left h2]
  · rw [show min a mn = mn from min_eq_right h1,
      show min mn mx = mn from min_eq_left hmm,
      show max a mn = a from max_eq_left h1,
      show max a mx = mx from max_eq_right h2]
  · rw [show min mn a = mn from min_eq_left h1,
      show min mn mx = mn from min_eq_left hmm,
      show max mn a = a from max_eq_right h1,
      show max a mx = mx from max_eq_right h2]
  · rw [show min mn mx = mn from min_eq_left hmm,
      show min mn a = mn from min_eq_left h1,
      show max mn mx = mx from max_eq_right hmm,
      show max mx a = mx from max_eq_left h2]

/-- Lightness is preserved exactly by the `HSL → RGB → HSL` round trip, for
hue in `[0,1)`, non-negative saturation and lightness in `[0,1]`. -/
theorem RGB_HSL_L (h : HSLColor) (hH0 : 0 ≤ h.H) (hH1 : h.H < 1)
    (hS0 : 0 ≤ h.S) (hL0 : 0 ≤ h.L) (hL1 : h.L ≤ 1) :
    (HSLColor.RGB h).HSL.L = h.L := by
  rw [HSL_L_eq, rgbL]
  by_cases hS : h.S = 0
  · rw [HSLColor.RGB, if_pos hS]
    show (minC ⟨h.L, h.L, h.L⟩ + maxC ⟨h.L, h.L, h.L⟩) / 2 = h.L
    rw [minC, maxC]
    show (min (min h.L h.L) h.L + max (max h.L h.L) h.L) / 2 = h.L
    rw [min_self, min_self, max_self, max_self]
    ring
  · rw [HSLColor.RGB, if_neg hS]
    set m1 := hslM1 h with hm1
    set m2 := hslM2 h with hm2
    have hm12 : m1 ≤ m2 := hslM1_le_hslM2 h hS0 hL0 hL1
    have hsum : m1 + m2 = 2 * h.L := hslM1_add_hslM2 h
    have key : minC ⟨v m1 m2 (h.H + 1/3), v m1 m2 h.H, v m1 m2 (h.H - 1/3)⟩ +
        maxC ⟨v m1 m2 (h.H + 1/3), v m1 m2 h.H, v m1 m2 (h.H - 1/3)⟩ = m1 + m2 := by
      by_cases w1 : h.H < 1/6
      · -- R → m2, G interpolates, B → m1
        have hR : v m1 m2 (h.H + 1/3) = m2 := by
          rw [v, normHue_eq_self _ (by linarith) (by linarith)]
          exact vBody_m2 m1 m2 _ (by linarith) (by linarith)
        have hB : v m1 m2 (h.H - 1/3) = m1 := by
          rw [v, normHue_neg_add_one _ (by linarith) (by linarith)]
          exact vBody_m1 m1 m2 _ (by linarith)
        have hG := v_mem m1 m2 h.H hm12
        rw [hR, hB]
        exact minmax_sum m1 m2 _ hG.1 hG.2 _ (Or.inr (Or.inl rfl))
      · by_cases w2 : h.H < 1/3
        · -- R interpolates, G → m2, B → m1
          have hG : v m1 m2 h.H = m2 := by
            rw [v, normHue_eq_self _ (by linarith) (by linarith)]
            exact vBody_m2 m1 m2 _ (by linarith) (by linarith)
          have hB : v m1 m2 (h.H - 1/3) = m1 := by
            rw [v, normHue_neg_add_one _ (by linarith) (by linarith)]
            exact vBody_m1 m1 m2 _ (by linarith)
          have hR := v_mem m1 m2 (h.H + 1/3) hm12
          rw [hG, hB]
          exact minmax_sum m1 m2 _ hR.1 hR.2 _ (Or.inl rfl)
        · by_cases w3 : h.H < 1/2
          · -- R → m1, G → m2, B interpolates
            have hR : v m1 m2 (h.H + 1/3) = m1 := by
              rw [v, normHue_eq_self _ (by linarith) (by linarith)]
              exact vBody_m1 m1 m2 _ (by linarith)
            have hG : v m1 m2 h.H = m2 := by
              rw [v, normHue_eq_self _ (by linarith) (by linarith)]
              exact vBody_m2 m1 m2 _ (by linarith) (by linarith)
            have hB := v_mem m1 m2 (h.H - 1/3) hm12
            rw [hR, hG]
            exact minmax_sum m1 m2 _ hB.1 hB.2 _
              (Or.inr (Or.inr (Or.inr (Or.inr (Or.inr rfl)))))
          · by_cases w4 : h.H < 2/3
            · -- R → m1, G interpolates, B → m2
              have hR : v m1 m2 (h.H + 1/3) = m1 := by
                rw [v, normHue_eq_self _ (by linarith) (by linarith)]
                exact vBody_m1 m1 m2 _ (by linarith)
              have hB : v m1 m2 (h.H - 1/3) = m2 := by
                rw [v, normHue_eq_self _ (by linarith) (by linarith)]
                exact vBody_m2 m1 m2 _ (by linarith) (by linarith)
              have hG := v_mem m1 m2 h.H hm12
              rw [hR, hB]
              exact minmax_sum m1 m2 _ hG.1 hG.2 _
                (Or.inr (Or.inr (Or.inr (Or.inr (Or.inl rfl)))))
            · by_cases w5 : h.H < 5/6
              · -- R interpolates, G → m1, B → m2
                have hG : v m1 m2 h.H = m1 := by
                  rw [v, normHue_eq_self _ (by linarith) (by linarith)]
                  exact vBody_m1 m1 m2 _ (by linarith)
                have hB : v m1 m2 (h.H - 1/3) = m2 := by
                  rw [v, normHue_eq_self _ (by linarith) (by linarith)]
                  exact vBody_m2 m1 m2 _ (by linarith) (by linarith)
                have hR := v_mem m1 m2 (h.H + 1/3) hm12
                rw [hG, hB]
                exact minmax_sum m1 m2 _ hR.1 hR.2 _
                  (Or.inr (Or.inr (Or.inr (Or.inl rfl))))
              · -- h.H ∈ [5/6, 1): R → m2, G → m1, B interpolates
                have hR : v m1 m2 (h.H + 1/3) = m2 := by
                  rw [v, normHue_sub_one _ (by linarith) (by linarith)]
                  exact vBody_m2 m1 m2 _ (by linarith) (by linarith)
                have hG : v m1 m2 h.H = m1 := by
                  rw [v, normHue_eq_self _ (by linarith) (by linarith)]
                  exact vBody_m1 m1 m2 _ (by linarith)
                have hB := v_mem m1 m2 (h.H - 1/3) hm12
                rw [hR, hG]
                exact minmax_sum m1 m2 _ hB.1 hB.2 _ (Or.inr (Or.inr (Or.inl rfl)))
    rw [key, hsum]
    ring

theorem hexDigitVal_mem (ch : Char) : 0 ≤ hexDigitVal ch ∧ hexDigitVal ch ≤ 15 := by
  rw [hexDigitVal]
  split_ifs with h1 h2 h3
  · simp [Char.isDigit] at h1
    obtain ⟨g1, g2⟩ := h1
    have n1 : 48 ≤ ch.toNat := g1
    have n2 : ch.toNat ≤ 57 := g2
    constructor <;> [omega; omega]
  · obtain ⟨g1, g2⟩ := h2
    rw [Char.le_def] at g1 g2
    have n1 : 97 ≤ ch.toNat := g1
    have n2 : ch.toNat ≤ 102 := g2
    constructor <;> omega
  · obtain ⟨g1, g2⟩ := h3
    rw [Char.le_def] at g1 g2
    have n1 : 65 ≤ ch.toNat := g1
    have n2 : ch.toNat ≤ 70 := g2
    constructor <;> omega
  · exact ⟨le_rfl, by norm_num⟩

theorem parseHexPair_mem (ch : Char) :
    0 ≤ parseHexPair ch ∧ parseHexPair ch ≤ 255 := by
  rw [parseHexPair]
  have h := hexDigitVal_mem ch
  split_ifs
  · constructor <;> omega
  · exact ⟨le_rfl, by norm_num⟩

theorem hexToRGB_inRange (r g b : Char) : inRange (HexToRGB r g b) := by
  rw [HexToRGB, NewRGBColorFrom255]
  have hr := parseHexPair_mem r
  have hg := parseHexPair_mem g
  have hb := parseHexPair_mem b
  refine ⟨?_, ?_, ?_, ?_, ?_, ?_⟩
  · exact div_nonneg (by exact_mod_cast hr.1) (by norm_num)
  · exact (div_le_one (by norm_num)).mpr (by exact_mod_cast hr.2)
  · exact div_nonneg (by exact_mod_cast hg.1) (by norm_num)
  · exact (div_le_one (by norm_num)).mpr (by exact_mod_cast hg.2)
  · exact div_nonneg (by exact_mod_cast hb.1) (by norm_num)
  · exact (div_le_one (by norm_num)).mpr (by exact_mod_cast hb.2)

theorem RGB_inRange (h : HSLColor) (hS0 : 0 ≤ h.S) (hS1 : h.S ≤ 1)
    (hL0 : 0 ≤ h.L) (hL1 : h.L ≤ 1) : inRange (HSLColor.RGB h) := by
  rw [HSLColor.RGB]
  split_ifs with hS
  · exact ⟨hL0, hL1, hL0, hL1, hL0, hL1⟩
  · have hm12 : hslM1 h ≤ hslM2 h := hslM1_le_hslM2 h hS0 hL0 hL1
    have hm1 : 0 ≤ hslM1 h := hslM1_nonneg h hS0 hS1 hL0 hL1
    have hm2 : hslM2 h ≤ 1 := hslM2_le_one h hS0 hS1 hL0 hL1
    have b1 := v_mem (hslM1 h) (hslM2 h) (h.H + 1/3) hm12
    have b2 := v_mem (hslM1 h) (hslM2 h) h.H hm12
    have b3 := v_mem (hslM1 h) (hslM2 h) (h.H - 1/3) hm12
    exact ⟨le_trans hm1 b1.1, le_trans b1.2 hm2, le_trans hm1 b2.1,
      le_trans b2.2 hm2, le_trans hm1 b3.1, le_trans b3.2 hm2⟩

theorem capLightness_inRange (c : RGBColor) (hc : inRange c) (fl ce : ℚ) :
    inRange (c.CapLightness fl ce) := by
  rw [RGBColor.CapLightness]
  split_ifs with hg hlow hhigh
  · exact hc
  · push_neg at hg
    refine RGB_inRange _ (HSL_S_mem c hc).1 (HSL_S_mem c hc).2 hg.2.1 ?_
    exact le_trans (le_of_lt hg.1) hg.2.2
  · push_neg at hg
    refine RGB_inRange _ (HSL_S_mem c hc).1 (HSL_S_mem c hc).2 ?_ hg.2.2
    exact le_trans hg.2.1 (le_of_lt hg.1)
  · exact hc

/-- C9: every constructor and conversion preserves the `[0,1]` channel-range
invariant of `RGBColor`: `HexToRGB` always yields in-range channels,
`HSLColor.RGB` yields in-range channels for any in-range HSL color, and
`CapLightness` maps in-range colors to in-range colors (for any bounds). -/
theorem rgb_range_invariants :
    (∀ r g b : Char, inRange (HexToRGB r g b)) ∧
    (∀ h : HSLColor, 0 ≤ h.H → h.H < 1 → 0 ≤ h.S → h.S ≤ 1 → 0 ≤ h.L →
      h.L ≤ 1 → inRange (HSLColor.RGB h)) ∧
    (∀ (c : RGBColor) (fl ce : ℚ), inRange c → inRange (c.CapLightness fl ce)) :=
  ⟨hexToRGB_inRange,
    fun h _ _ hS0 hS1 hL0 hL1 => RGB_inRange h hS0 hS1 hL0 hL1,
    fun c fl ce hc => capLightness_inRange c hc fl ce⟩

theorem rgb_range_invariants_witness :
    (0 : ℚ) ≤ 1/4 ∧ (1/4 : ℚ) < 1 ∧ (0 : ℚ) ≤ 1/2 ∧ (1/2 : ℚ) ≤ 1 ∧
    inRange (HSLColor.RGB ⟨1/4, 1/2, 1/2⟩) ∧
    inRange (RGBColor.CapLightness ⟨1, 1, 1⟩ 0 (1/2)) := by
  refine ⟨by norm_num, by norm_num, by norm_num, by norm_num, ?_, ?_⟩
  · exact rgb_range_invariants.2.1 ⟨1/4, 1/2, 1/2⟩ (by norm_num) (by norm_num)
      (by norm_num) (by norm_num) (by norm_num) (by norm_num)
  · exact rgb_range_invariants.2.2 ⟨1, 1, 1⟩ 0 (1/2)
      ⟨by norm_num, by norm_num, by norm_num, by norm_num, by norm_num, by norm_num⟩

/-- C3: with valid bounds `0 ≤ floor < ceiling ≤ 1` and an in-range color:
if the lightness is below the floor the result has lightness exactly `floor`;
if above the ceiling, exactly `ceiling`; and if already inside `[floor,
ceiling]` the exact input color is returned unchanged (no round-trip). -/
theorem capLightness_spec (c : RGBColor) (hc : inRange c) (fl ce : ℚ)
    (h0 : 0 ≤ fl) (h1 : fl < ce) (h2 : ce ≤ 1) :
    ((c.HSL).L < fl → ((c.CapLightness fl ce).HSL).L = fl) ∧
    (ce < (c.HSL).L → ((c.CapLightness fl ce).HSL).L = ce) ∧
    (fl ≤ (c.HSL).L → (c.HSL).L ≤ ce → c.CapLightness fl ce = c) := by
  have hguard : ¬ (fl ≥ ce ∨ fl < 0 ∨ ce > 1) := by
    push_neg
    exact ⟨h1, h0, h2⟩
  have hS := HSL_S_mem c hc
  have hH := HSL_H_mem c
  refine ⟨?_, ?_, ?_⟩
  · intro hlow
    rw [RGBColor.CapLightness, if_neg hguard, if_pos hlow]
    exact RGB_HSL_L ⟨(c.HSL).H, (c.HSL).S, fl⟩ hH.1 hH.2 hS.1 h0
      (le_trans (le_of_lt h1) h2)
  · intro hhigh
    rw [RGBColor.CapLightness, if_neg hguard,
      if_neg (not_lt.mpr (le_of_lt (lt_trans h1 hhigh))), if_pos hhigh]
    exact RGB_HSL_L ⟨(c.HSL).H, (c.HSL).S, ce⟩ hH.1 hH.2 hS.1
      (le_trans h0 (le_of_lt h1)) h2
  · intro hge hle
    rw [RGBColor.CapLightness, if_neg hguard, if_neg (not_lt.mpr hge),
      if_neg (not_lt.mpr hle)]

theorem capLightness_spec_witness :
    inRange ⟨1, 1, 1⟩ ∧ (0 : ℚ) ≤ 0 ∧ (0 : ℚ) < 1/2 ∧ (1/2 : ℚ) ≤ 1 ∧
    (1/2 : ℚ) < (RGBColor.HSL ⟨1, 1, 1⟩).L ∧
    ((RGBColor.CapLightness ⟨1, 1, 1⟩ 0 (1/2)).HSL).L = 1/2 := by
  have hL : RGBColor.HSL ⟨1, 1, 1⟩ = ⟨0, 0, 1⟩ := by
    rw [RGBColor.HSL]
    norm_num [minC, maxC, rgbL]
  have hin : inRange ⟨1, 1, 1⟩ := ⟨by norm_num, by norm_num, by norm_num,
    by norm_num, by norm_num, by norm_num⟩
  refine ⟨hin, le_rfl, by norm_num, by norm_num, by rw [hL]; norm_num, ?_⟩
  exact (capLightness_spec ⟨1, 1, 1⟩ hin 0 (1/2) le_rfl (by norm_num)
    (by norm_num)).2.1 (by rw [hL]; norm_num)

theorem v_eval_01 (m1 m2 hue : ℚ) (h0 : 0 ≤ hue) (h1 : hue < 1) :
    v m1 m2 hue = vBody m1 m2 hue := by
  rw [v, normHue_eq_self hue h0 h1]

theorem v_eval_neg (m1 m2 hue : ℚ) (h0 : -1 < hue) (h1 : hue < 0) :
    v m1 m2 hue = vBody m1 m2 (hue + 1) := by
  rw [v, normHue_neg_add_one hue h0 h1]

theorem v_eval_ge1 (m1 m2 hue : ℚ) (h0 : 1 ≤ hue) (h1 : hue < 2) :
    v m1 m2 hue = vBody m1 m2 (hue - 1) := by
  rw [v, normHue_sub_one hue h0 h1]

set_option maxHeartbeats 1600000 in
/-- The exact `RGB → HSL → RGB` round trip, over exact rational arithmetic. -/
theorem HSL_RGB_roundtrip (c : RGBColor) (hc : inRange c) :
    (RGBColor.HSL c).RGB = c := by
  obtain ⟨hR0, hR1, hG0, hG1, hB0, hB1⟩ := hc
  have hRmx := (le_maxC c).1
  have hGmx := (le_maxC c).2.1
  have hBmx := (le_maxC c).2.2
  have hmnR := (minC_le c).1
  have hmnG := (minC_le c).2.1
  have hmnB := (minC_le c).2.2
  have hmn0 : 0 ≤ minC c := le_min (le_min hR0 hG0) hB0
  have hmx1 : maxC c ≤ 1 := max_le (max_le hR1 hG1) hB1
  by_cases heq : minC c = maxC c
  · -- achromatic: all three channels coincide with the common value
    rw [RGBColor.HSL, if_pos heq, HSLColor.RGB, if_pos rfl]
    have hRv : c.R = minC c := le_antisymm (by rw [heq]; exact hRmx) hmnR
    have hGv : c.G = minC c := le_antisymm (by rw [heq]; exact hGmx) hmnG
    have hBv : c.B = minC c := le_antisymm (by rw [heq]; exact hBmx) hmnB
    show (⟨rgbL c, rgbL c, rgbL c⟩ : RGBColor) = c
    have hl : rgbL c = minC c := by
      rw [rgbL, ← heq]
      ring
    rw [RGBColor.mk.injEq]
    exact ⟨by rw [hl, hRv], by rw [hl, hGv], by rw [hl, hBv]⟩
  · have hlt : minC c < maxC c := lt_of_le_of_ne (minC_le_maxC c) heq
    have hd : 0 < maxC c - minC c := sub_pos.mpr hlt
    have hSne : rgbS c ≠ 0 := (rgbS_pos c hlt hmn0 hmx1).ne'
    rw [RGBColor.HSL, if_neg heq, HSLColor.RGB, if_neg hSne]
    rw [hslM1_of_HSL c _ hlt hmn0 hmx1, hslM2_of_HSL c _ hlt hmn0 hmx1]
    dsimp only
    rw [RGBColor.mk.injEq]
    by_cases hRmax : c.R = maxC c
    · -- R holds the max
      have ht : rgbH0 c = (c.G - c.B) / (maxC c - minC c) := by
        rw [rgbH0, if_pos hRmax, div_sub_div_same]
        congr 1
        ring
      have htle : (c.G - c.B) / (maxC c - minC c) ≤ 1 :=
        (div_le_one hd).mpr (by linarith)
      have htge : -1 ≤ (c.G - c.B) / (maxC c - minC c) := by
        rw [le_div_iff hd]
        linarith
      have hk : (maxC c - minC c) * ((c.G - c.B) / (maxC c - minC c)) =
          c.G - c.B := by
        field_simp
      by_cases hGB : c.B ≤ c.G
      · -- t ∈ [0, 1]
        have ht0 : 0 ≤ (c.G - c.B) / (maxC c - minC c) :=
          div_nonneg (by linarith) (le_of_lt hd)
        have hmnBv : minC c = c.B := by
          rw [minC]
          exact min_eq_right (le_min (by rw [hRmax]; exact hBmx) hGB)
        set t := (c.G - c.B) / (maxC c - minC c) with htdef
        have hH : normHue (rgbH0 c / 6) = t / 6 := by
          rw [ht]
          exact normHue_eq_self _ (by linarith) (by linarith)
        rw [hH]
        rcases lt_or_eq_of_le htle with htlt | hteq
        · refine ⟨?_, ?_, ?_⟩
          · rw [v_eval_01 _ _ _ (by linarith) (by linarith),
              vBody_m2 _ _ _ (by linarith) (by linarith), hRmax]
          · rw [v_eval_01 _ _ _ (by linarith) (by linarith),
              vBody_seg1 _ _ _ (by linarith)]
            have hexp : (maxC c - minC c) * (t / 6) * 6 = c.G - c.B := by
              rw [htdef]
              field_simp
              ring
            linarith
          · rw [v_eval_neg _ _ _ (by linarith) (by linarith)]
            rw [vBody_m1 _ _ _ (by linarith)]
            linarith
        · -- t = 1: forces G = maxC and B = minC
          have hGB2 : c.G - c.B = maxC c - minC c := by
            have h5 := hk
            rw [hteq, mul_one] at h5
            linarith
          have hGmax : c.G = maxC c := by linarith
          have hBmin : c.B = minC c := by linarith
          rw [hteq]
          refine ⟨?_, ?_, ?_⟩
          · rw [v_eval_01 _ _ _ (by norm_num) (by norm_num),
              vBody_seg3 _ _ _ (by norm_num) (by norm_num)]
            have : (maxC c - minC c) * (2/3 - (1/6 + 1/3)) * 6 =
                maxC c - minC c := by ring
            linarith
          · rw [v_eval_01 _ _ _ (by norm_num) (by norm_num),
              vBody_m2 _ _ _ (by norm_num) (by norm_num), hGmax]
          · rw [v_eval_neg _ _ _ (by norm_num) (by norm_num)]
            rw [vBody_m1 _ _ _ (by norm_num)]
            linarith
      · -- t ∈ [-1, 0)
        push_neg at hGB
        have htneg : (c.G - c.B) / (maxC c - minC c) < 0 :=
          div_neg_of_neg_of_pos (by linarith) hd
        have hmnGv : minC c = c.G := by
          rw [minC,
            show min c.R c.G = c.G from min_eq_right (by rw [hRmax]; exact hGmx)]
          exact min_eq_left (le_of_lt hGB)
        set t := (c.G - c.B) / (maxC c - minC c) with htdef
        have hH : normHue (rgbH0 c / 6) = t / 6 + 1 := by
          rw [ht]
          exact normHue_neg_add_one _ (by linarith) (by linarith)
        rw [hH]
        refine ⟨?_, ?_, ?_⟩
        · rw [v_eval_ge1 _ _ _ (by linarith) (by linarith),
            show t / 6 + 1 + 1/3 - 1 = t / 6 + 1/3 from by ring,
            vBody_m2 _ _ _ (by linarith) (by linarith), hRmax]
        · rw [v_eval_01 _ _ _ (by linarith) (by linarith),
            vBody_m1 _ _ _ (by linarith)]
          linarith
        · rw [v_eval_01 _ _ _ (by linarith) (by linarith),
            show t / 6 + 1 - 1/3 = t / 6 + 2/3 from by ring,
            vBody_seg3 _ _ _ (by linarith) (by linarith)]
          have hexp : (maxC c - minC c) * (2/3 - (t / 6 + 2/3)) * 6 =
              -(c.G - c.B) := by
            rw [htdef]
            field_simp
            ring
          linarith
    · by_cases hGmax : c.G = maxC c
      · -- c.R ≠ maxC, c.G = maxC
        have hRlt : c.R < maxC c := lt_of_le_of_ne hRmx hRmax
        have hu : rgbH0 c = 2 + (c.B - c.R) / (maxC c - minC c) := by
          rw [rgbH0, if_neg hRmax, if_pos hGmax, add_sub_assoc, div_sub_div_same]
          congr 2
          ring
        set u := (c.B - c.R) / (maxC c - minC c) with hudef
        have hule : u ≤ 1 := (div_le_one hd).mpr (by linarith)
        have hugt : -1 < u := by
          rw [hudef, lt_div_iff hd]
          linarith
        have hk : (maxC c - minC c) * u = c.B - c.R := by
          rw [hudef]
          field_simp
        have hH : normHue (rgbH0 c / 6) = (2 + u) / 6 := by
          rw [hu]
          exact normHue_eq_self _ (by linarith) (by linarith)
        rw [hH]
        by_cases hur : u < 0
        · -- B < R: the min is B
          have hBR : c.B < c.R := by
            nlinarith [hk, mul_pos hd (neg_pos.mpr hur)]
          have hmnBv : minC c = c.B := by
            rw [minC]
            exact min_eq_right (le_min (le_of_lt hBR) (by rw [hGmax]; exact hBmx))
          refine ⟨?_, ?_, ?_⟩
          · rw [v_eval_01 _ _ _ (by linarith) (by linarith),
              vBody_seg3 _ _ _ (by linarith) (by linarith)]
            have harith : (maxC c - minC c) * (2/3 - ((2 + u)/6 + 1/3)) * 6 =
                -((maxC c - minC c) * u) := by ring
            linarith [harith, hk]
          · rw [v_eval_01 _ _ _ (by linarith) (by linarith),
              vBody_m2 _ _ _ (by linarith) (by linarith), hGmax]
          · rw [show (2 + u)/6 - 1/3 = u/6 from by ring,
              v_eval_neg _ _ _ (by linarith) (by linarith),
              vBody_m1 _ _ _ (by linarith)]
            linarith
        · push_neg at hur
          have hRB : c.R ≤ c.B := by
            nlinarith [hk, mul_nonneg (le_of_lt hd) hur]
          have hmnRv : minC c = c.R := by
            rw [minC,
              show min c.R c.G = c.R from min_eq_left (by rw [hGmax]; exact hRmx)]
            exact min_eq_left hRB
          by_cases hu1 : u < 1
          · refine ⟨?_, ?_, ?_⟩
            · rw [v_eval_01 _ _ _ (by linarith) (by linarith),
                vBody_m1 _ _ _ (by linarith)]
              linarith
            · rw [v_eval_01 _ _ _ (by linarith) (by linarith),
                vBody_m2 _ _ _ (by linarith) (by linarith), hGmax]
            · rw [show (2 + u)/6 - 1/3 = u/6 from by ring,
                v_eval_01 _ _ _ (by linarith) (by linarith),
                vBody_seg1 _ _ _ (by linarith)]
              have harith : (maxC c - minC c) * (u/6) * 6 =
                  (maxC c - minC c) * u := by ring
              linarith [harith, hk]
          · push_neg at hu1
            have hueq : u = 1 := le_antisymm hule hu1
            have hBR2 : c.B - c.R = maxC c - minC c := by
              have h5 := hk
              rw [hueq, mul_one] at h5
              linarith
            have hBmax2 : c.B = maxC c := by linarith
            have hRmin2 : c.R = minC c := by linarith
            rw [hueq]
            refine ⟨?_, ?_, ?_⟩
            · rw [v_eval_01 _ _ _ (by norm_num) (by norm_num),
                vBody_m1 _ _ _ (by norm_num)]
              linarith
            · rw [v_eval_01 _ _ _ (by norm_num) (by norm_num),
                vBody_seg3 _ _ _ (by norm_num) (by norm_num)]
              have harith : (maxC c - minC c) * (2/3 - (2 + 1)/6) * 6 =
                  maxC c - minC c := by ring
              linarith [harith, hGmax]
            · rw [show (2 + (1:ℚ))/6 - 1/3 = 1/6 from by norm_num,
                v_eval_01 _ _ _ (by norm_num) (by norm_num),
                vBody_m2 _ _ _ (by norm_num) (by norm_num)]
              linarith
      · -- neither R nor G holds the max: B does
        have hBmax : c.B = maxC c := by
          rcases maxC_cases c with h | h | h
          · exact absurd h.symm hRmax
          · exact absurd h.symm hGmax
          · exact h.symm
        have hRlt : c.R < maxC c := lt_of_le_of_ne hRmx hRmax
        have hGlt : c.G < maxC c := lt_of_le_of_ne hGmx hGmax
        have hw : rgbH0 c = 4 + (c.R - c.G) / (maxC c - minC c) := by
          rw [rgbH0, if_neg hRmax, if_neg hGmax, add_sub_assoc, div_sub_div_same]
          congr 2
          ring
        set w := (c.R - c.G) / (maxC c - minC c) with hwdef
        have hwlt : w < 1 := by
          rw [hwdef, div_lt_one hd]
          linarith
        have hwgt : -1 < w := by
          rw [hwdef, lt_div_iff hd]
          linarith
        have hk : (maxC c - minC c) * w = c.R - c.G := by
          rw [hwdef]
          field_simp
        have hH : normHue (rgbH0 c / 6) = (4 + w) / 6 := by
          rw [hw]
          exact normHue_eq_self _ (by linarith) (by linarith)
        rw [hH]
        by_cases hwr : w < 0
        · -- R < G: the min is R
          have hRG : c.R < c.G := by
            nlinarith [hk, mul_pos hd (neg_pos.mpr hwr)]
          have hmnRv : minC c = c.R := by
            rw [minC, show min c.R c.G = c.R from min_eq_left (le_of_lt hRG)]
            exact min_eq_left (by rw [hBmax]; exact hRmx)
          refine ⟨?_, ?_, ?_⟩
          · rw [show (4 + w)/6 + 1/3 = (6 + w)/6 from by ring,
              v_eval_01 _ _ _ (by linarith) (by linarith),
              vBody_m1 _ _ _ (by linarith)]
            linarith
          · rw [v_eval_01 _ _ _ (by linarith) (by linarith),
              vBody_seg3 _ _ _ (by linarith) (by linarith)]
            have harith : (maxC c - minC c) * (2/3 - (4 + w)/6) * 6 =
                -((maxC c - minC c) * w) := by ring
            linarith [harith, hk]
          · rw [show (4 + w)/6 - 1/3 = (2 + w)/6 from by ring,
              v_eval_01 _ _ _ (by linarith) (by linarith),
              vBody_m2 _ _ _ (by linarith) (by linarith), hBmax]
        · push_neg at hwr
          have hGR : c.G ≤ c.R := by
            nlinarith [hk, mul_nonneg (le_of_lt hd) hwr]
          have hmnGv : minC c = c.G := by
            rw [minC, show min c.R c.G = c.G from min_eq_right hGR]
            exact min_eq_left (by rw [hBmax]; exact hGmx)
          refine ⟨?_, ?_, ?_⟩
          · rw [show (4 + w)/6 + 1/3 = (6 + w)/6 from by ring,
              v_eval_ge1 _ _ _ (by linarith) (by linarith),
              show (6 + w)/6 - 1 = w/6 from by ring,
              vBody_seg1 _ _ _ (by linarith)]
            have harith : (maxC c - minC c) * (w/6) * 6 =
                (maxC c - minC c) * w := by ring
            linarith [harith, hk]
          · rw [v_eval_01 _ _ _ (by linarith) (by linarith),
              vBody_m1 _ _ _ (by linarith)]
            linarith
          · rw [show (4 + w)/6 - 1/3 = (2 + w)/6 from by ring,
              v_eval_01 _ _ _ (by linarith) (by linarith),
              vBody_m2 _ _ _ (by linarith) (by linarith), hBmax]

/-- C1: for every in-range RGB color, converting to HSL and back yields the
color exactly (in the exact-arithmetic model), hence each channel agrees with
the original to within the claimed `1e-3` tolerance. -/
theorem rgb_hsl_roundtrip_tolerance (c : RGBColor) (hc : inRange c) :
    (RGBColor.HSL c).RGB = c ∧
    |((RGBColor.HSL c).RGB).R - c.R| ≤ 1/1000 ∧
    |((RGBColor.HSL c).RGB).G - c.G| ≤ 1/1000 ∧
    |((RGBColor.HSL c).RGB).B - c.B| ≤ 1/1000 := by
  have h := HSL_RGB_roundtrip c hc
  refine ⟨h, ?_, ?_, ?_⟩ <;>
    · rw [h]
      norm_num

theorem rgb_hsl_roundtrip_tolerance_witness :
    inRange ⟨1/4, 1/2, 3/4⟩ ∧
    ((RGBColor.HSL ⟨1/4, 1/2, 3/4⟩).RGB = ⟨1/4, 1/2, 3/4⟩ ∧
      |((RGBColor.HSL ⟨1/4, 1/2, 3/4⟩).RGB).R - (⟨1/4, 1/2, 3/4⟩ : RGBColor).R| ≤ 1/1000 ∧
      |((RGBColor.HSL ⟨1/4, 1/2, 3/4⟩).RGB).G - (⟨1/4, 1/2, 3/4⟩ : RGBColor).G| ≤ 1/1000 ∧
      |((RGBColor.HSL ⟨1/4, 1/2, 3/4⟩).RGB).B - (⟨1/4, 1/2, 3/4⟩ : RGBColor).B| ≤ 1/1000) := by
  have hin : inRange (⟨1/4, 1/2, 3/4⟩ : RGBColor) := by
    norm_num [inRange]
  exact ⟨hin, rgb_hsl_roundtrip_tolerance ⟨1/4, 1/2, 3/4⟩ hin⟩

/-- One character of Go `html.EscapeString`: `&`, `'`, `<`, `>`, `"` become
their HTML entities; every other character is unchanged. -/
def escapeChar (ch : Char) : List Char :=
  if ch = '&' then ['&', 'a', 'm', 'p', ';']
  else if ch = '\'' then ['&', '#', '3', '9', ';']
  else if ch = '<' then ['&', 'l', 't', ';']
  else if ch = '>' then ['&', 'g', 't', ';']
  else if ch = '"' then ['&', '#', '3', '4', ';']
  else [ch]

/-- Go `html.EscapeString`, the escape collaborator of the HTML renderer. -/
def escapeString (s : List Char) : List Char := (s.map escapeChar).join

/-- `decColors.FindAllStringSubmatch(r, -1)`: the submatch digits of the
leftmost non-overlapping matches of `\^(\d)`, in order. -/
def findAllDec : List Char → List Char
  | [] => []
  | '^' :: d :: rest =>
    if d.isDigit then d :: findAllDec rest else findAllDec (d :: rest)
  | _ :: rest => findAllDec rest
termination_by s => s.length
decreasing_by all_goals simp [List.length] <;> omega

/-- `hexColors.FindAllStringSubmatch(r, -1)`: the submatch triples of the
leftmost non-overlapping matches of `\^x([\dA-Fa-f]){3}`, in order. -/
def findAllHex : List Char → List (Char × Char × Char)
  | [] => []
  | '^' :: 'x' :: a :: b :: e :: rest =>
    if isHexDigitGo a && isHexDigitGo b && isHexDigitGo e then
      (a, b, e) :: findAllHex rest
    else findAllHex ('x' :: a :: b :: e :: rest)
  | _ :: rest => findAllHex rest
termination_by s => s.length
decreasing_by all_goals simp [List.length] <;> omega

/-- The `decimalSpans` map of `QStr.HTML`, keyed by the matched digit; a key
outside `0`–`9` gives Go's zero value `""` (unreachable for actual matches). -/
def decimalSpan (d : Char) : List Char :=
  if d = '0' then "<span style='color:rgb(128,128,128)'>".data
  else if d = '1' then "<span style='color:rgb(255,0,0)'>".data
  else if d = '2' then "<span style='color:rgb(51,255,0)'>".data
  else if d = '3' then "<span style='color:rgb(255,255,0)'>".data
  else if d = '4' then "<span style='color:rgb(51,102,255)'>".data
  else if d = '5' then "<span style='color:rgb(51,255,255)'>".data
  else if d = '6' then "<span style='color:rgb(255,51,102)'>".data
  else if d = '7' then "<span style='color:rgb(255,255,255)'>".data
  else if d = '8' then "<span style='color:rgb(153,153,153)'>".data
  else if d = '9' then "<span style='color:rgb(128,128,128)'>".data
  else []

/-- Go `strings.Replace(s, pat, rep, 1)`: replace the first occurrence. -/
def replaceFirst : List Char → List Char → List Char → List Char
  | [], _, _ => []
  | ch :: rest, pat, rep =>
    if pat.isPrefixOf (ch :: rest) then rep ++ (ch :: rest).drop pat.length
    else ch :: replaceFirst rest pat rep

/-- The color rendered for a hex directive: `HexToRGB` then
`CapLightness(0.5, 1.0)`, exactly as `QStr.HTML` computes it. -/
def hexSpanColor (m : Char × Char × Char) : RGBColor :=
  (HexToRGB m.1 m.2.1 m.2.2).CapLightness (1/2) 1

/-- The input of `QStr.HTML` after `html.EscapeString`. -/
def htmlEscaped (s : QStr) : List Char := escapeString s.data

/-- The renderer's string after the loop substituting the `^n` matches. -/
def htmlAfterDec (s : QStr) : List Char :=
  (findAllDec (htmlEscaped s)).foldl
    (fun r d => replaceFirst r ['^', d] (decimalSpan d)) (htmlEscaped s)

/-- The renderer's string after also substituting the `^xrgb` matches:
everything before the closing spans are appended. -/
def htmlBody (s : QStr) : List Char :=
  (findAllHex (htmlAfterDec s)).foldl
    (fun r m =>
      replaceFirst r ['^', 'x', m.1, m.2.1, m.2.2] ((hexSpanColor m).SpanStr))
    (htmlAfterDec s)

/-- The number of closing `</span>` tags appended: one per `^n` match plus one
per `^xrgb` match. -/
def htmlCount (s : QStr) : ℕ :=
  (findAllDec (htmlEscaped s)).length + (findAllHex (htmlAfterDec s)).length

/-- `HTML` returns the HTML representation of the `QStr`
(Go: `func (s *QStr) HTML() template.HTML`). -/
def QStr.HTML (s : QStr) : List Char :=
  htmlBody s ++ (List.replicate (htmlCount s) ("</span>".data)).join

/-- The well-formedness invariant of the renderer's intermediate strings:
every `'<'` is immediately followed by `'s'` (in particular no string in the
pipeline ever contains `"</"`, so no closing tag can appear mid-string). -/
def ltOk : List Char → Bool
  | [] => true
  | [ch] => ch != '<'
  | ch :: next :: rest => (ch != '<' || next == 's') && ltOk (next :: rest)

theorem ltOk_one (ch : Char) : ltOk [ch] = (ch != '<') := rfl

theorem ltOk_cons2 (ch next : Char) (rest : List Char) :
    ltOk (ch :: next :: rest) =
      ((ch != '<' || next == 's') && ltOk (next :: rest)) := rfl

theorem ltOk_tail (ch : Char) (rest : List Char) (h : ltOk (ch :: rest) = true) :
    ltOk rest = true := by
  match rest with
  | [] => rfl
  | next :: rest2 =>
    rw [ltOk_cons2] at h
    exact (Bool.and_eq_true_iff.mp h).2

theorem ltOk_head_ne (ch : Char) (rest : List Char)
    (h : ltOk (ch :: rest) = true) (hch : ch = '<') :
    ∃ r2, rest = 's' :: r2 := by
  match rest with
  | [] =>
    rw [ltOk_one, hch] at h
    simp at h
  | next :: rest2 =>
    rw [ltOk_cons2, hch] at h
    have h1 := (Bool.and_eq_true_iff.mp h).1
    simp at h1
    exact ⟨rest2, by rw [h1]⟩

theorem ltOk_append (a b : List Char) (ha : ltOk a = true) (hb : ltOk b = true) :
    ltOk (a ++ b) = true := by
  induction a with
  | nil => exact hb
  | cons ch rest ih =>
    match rest with
    | [] =>
      match b with
      | [] => exact ha
      | b1 :: b2 =>
        show ltOk (ch :: b1 :: b2) = true
        rw [ltOk_cons2]
        rw [ltOk_one] at ha
        simp [ha, hb]
    | next :: rest2 =>
      show ltOk (ch :: next :: (rest2 ++ b)) = true
      rw [ltOk_cons2]
      rw [ltOk_cons2] at ha
      have h1 := (Bool.and_eq_true_iff.mp ha).1
      have h2 := (Bool.and_eq_true_iff.mp ha).2
      have h3 := ih h2
      rw [show next :: rest2 ++ b = next :: (rest2 ++ b) from rfl] at h3
      simp [h1, h3]

theorem ltOk_of_all_ne (l : List Char) (h : ∀ x ∈ l, x ≠ '<') :
    ltOk l = true := by
  induction l with
  | nil => rfl
  | cons ch rest ih =>
    match rest with
    | [] =>
      rw [ltOk_one]
      simpa using h ch (by simp)
    | next :: rest2 =>
      rw [ltOk_cons2]
      have h1 : ch ≠ '<' := h ch (by simp)
      have h2 := ih (fun x hx => h x (List.mem_cons_of_mem ch hx))
      simp [h1, h2]

theorem ltOk_drop (l : List Char) (n : ℕ) (h : ltOk l = true) :
    ltOk (l.drop n) = true := by
  induction n generalizing l with
  | zero => exact h
  | succ n ih =>
    match l with
    | [] => rfl
    | ch :: rest =>
      rw [List.drop_succ_cons]
      exact ih rest (ltOk_tail ch rest h)

theorem digitChar_ne_lt (m : ℕ) : digitCharGo m ≠ '<' := by
  rw [digitCharGo]
  split_ifs <;> decide

theorem natDigitsAux_ne_lt (fuel n : ℕ) (acc : List Char)
    (hacc : ∀ x ∈ acc, x ≠ '<') :
    ∀ x ∈ natDigitsAux fuel n acc, x ≠ '<' := by
  induction fuel generalizing n acc with
  | zero => exact hacc
  | succ fuel ih =>
    rw [natDigitsAux]
    split_ifs
    · exact hacc
    · refine ih (n / 10) _ ?_
      intro x hx
      rcases List.mem_cons.mp hx with hx | hx
      · rw [hx]
        exact digitChar_ne_lt (n % 10)
      · exact hacc x hx

theorem natDigits_ne_lt (n : ℕ) : ∀ x ∈ natDigits n, x ≠ '<' := by
  rw [natDigits]
  split_ifs
  · intro x hx
    simp at hx
    rw [hx]
    decide
  · exact natDigitsAux_ne_lt n n [] (by simp)

theorem intStr_ne_lt (n : ℤ) : ∀ x ∈ intStr n, x ≠ '<' := by
  rw [intStr]
  split_ifs
  · intro x hx
    rcases List.mem_cons.mp hx with hx | hx
    · rw [hx]
      decide
    · exact natDigits_ne_lt n.natAbs x hx
  · exact natDigits_ne_lt n.natAbs

theorem ltOk_spanStr (c : RGBColor) : ltOk c.SpanStr = true := by
  rw [RGBColor.SpanStr]
  refine ltOk_append _ _ (ltOk_append _ _ (ltOk_append _ _ (ltOk_append _ _
    (ltOk_append _ _ (ltOk_append _ _ (by decide)
      (ltOk_of_all_ne _ (intStr_ne_lt _))) (by decide))
      (ltOk_of_all_ne _ (intStr_ne_lt _))) (by decide))
      (ltOk_of_all_ne _ (intStr_ne_lt _))) (by decide)

theorem ltOk_decimalSpan (d : Char) : ltOk (decimalSpan d) = true := by
  rw [decimalSpan]
  split_ifs <;> decide

theorem replaceFirst_cons_ne (x : Char) (l pat rep : List Char) (p : List Char)
    (hpat : pat = '^' :: p) (hx : x ≠ '^') :
    replaceFirst (x :: l) pat rep = x :: replaceFirst l pat rep := by
  rw [replaceFirst, if_neg]
  rw [hpat]
  show ¬ (('^' :: p).isPrefixOf (x :: l) = true)
  rw [List.isPrefixOf]
  simp [Ne.symm hx]

theorem ltOk_replaceFirst (s : List Char) (pat rep p : List Char)
    (hpat : pat = '^' :: p) (hs : ltOk s = true) (hrep : ltOk rep = true) :
    ltOk (replaceFirst s pat rep) = true := by
  induction s with
  | nil => rfl
  | cons ch rest ih =>
    rw [replaceFirst]
    split_ifs with hpre
    · exact ltOk_append _ _ hrep (ltOk_drop _ _ hs)
    · have hR := ih (ltOk_tail ch rest hs)
      by_cases hch : ch = '<'
      · obtain ⟨r2, hr⟩ := ltOk_head_ne ch rest hs hch
        subst hr
        rw [replaceFirst_cons_ne 's' r2 pat rep p hpat (by decide)]
        rw [replaceFirst_cons_ne 's' r2 pat rep p hpat (by decide)] at hR
        rw [ltOk_cons2]
        simp [hR]
      · match hRm : replaceFirst rest pat rep with
        | [] =>
          rw [ltOk_one]
          simp [hch]
        | r1 :: rr =>
          rw [ltOk_cons2]
          rw [hRm] at hR
          simp [hch, hR]

theorem ltOk_foldl_dec (ds : List Char) (r : List Char) (hr : ltOk r = true) :
    ltOk (ds.foldl (fun r d => replaceFirst r ['^', d] (decimalSpan d)) r) =
      true := by
  induction ds generalizing r with
  | nil => exact hr
  | cons d ds ih =>
    rw [List.foldl_cons]
    exact ih _ (ltOk_replaceFirst _ _ _ [d] rfl hr (ltOk_decimalSpan d))

theorem ltOk_foldl_hex (ms : List (Char × Char × Char)) (r : List Char)
    (hr : ltOk r = true) :
    ltOk (ms.foldl
      (fun r m =>
        replaceFirst r ['^', 'x', m.1, m.2.1, m.2.2] ((hexSpanColor m).SpanStr))
      r) = true := by
  induction ms generalizing r with
  | nil => exact hr
  | cons m ms ih =>
    rw [List.foldl_cons]
    exact ih _ (ltOk_replaceFirst _ _ _ ['x', m.1, m.2.1, m.2.2] rfl hr
      (ltOk_spanStr (hexSpanColor m)))

theorem escapeChar_ne_lt (ch : Char) : ∀ x ∈ escapeChar ch, x ≠ '<' := by
  rw [escapeChar]
  split_ifs with h1 h2 h3 h4 h5 <;> intro x hx <;> simp at hx
  · rcases hx with h | h | h | h | h <;> (subst h; decide)
  · rcases hx with h | h | h | h | h <;> (subst h; decide)
  · rcases hx with h | h | h | h <;> (subst h; decide)
  · rcases hx with h | h | h | h <;> (subst h; decide)
  · rcases hx with h | h | h | h | h <;> (subst h; decide)
  · subst hx
    exact h3

theorem escapeString_ne_lt (s : List Char) : ∀ x ∈ escapeString s, x ≠ '<' := by
  rw [escapeString]
  intro x hx
  rw [List.mem_join] at hx
  obtain ⟨l, hl, hxl⟩ := hx
  rw [List.mem_map] at hl
  obtain ⟨ch, _, hl⟩ := hl
  rw [← hl] at hxl
  exact escapeChar_ne_lt ch x hxl

theorem ltOk_htmlBody (s : QStr) : ltOk (htmlBody s) = true := by
  rw [htmlBody]
  apply ltOk_foldl_hex
  rw [htmlAfterDec]
  apply ltOk_foldl_dec
  rw [htmlEscaped]
  exact ltOk_of_all_ne _ (escapeString_ne_lt s.data)

theorem ltOk_no_close (u : List Char) :
    ∀ (l w : List Char), ltOk l = true → l = u ++ '<' :: '/' :: w → False := by
  induction u with
  | nil =>
    intro l w hl hw
    rw [List.nil_append] at hw
    subst hw
    rw [ltOk_cons2] at hl
    simp at hl
  | cons x u' ih =>
    intro l w hl hw
    subst hw
    exact ih (u' ++ '<' :: '/' :: w) w
      (ltOk_tail _ _ (by rwa [List.cons_append] at hl)) rfl

theorem htmlBody_no_close (s : QStr) :
    ¬ ∃ u w, htmlBody s = u ++ "</span>".data ++ w := by
  rintro ⟨u, w, hw⟩
  refine ltOk_no_close u (htmlBody s) ("span>".data ++ w) (ltOk_htmlBody s) ?_
  rw [hw]
  rw [show ("</span>".data : List Char) =
    '<' :: '/' :: ('s' :: 'p' :: 'a' :: 'n' :: '>' :: []) from rfl]
  simp

theorem hexSpanColor_lightness (m : Char × Char × Char) :
    1/2 ≤ ((hexSpanColor m).HSL).L := by
  rw [hexSpanColor]
  have hin : inRange (HexToRGB m.1 m.2.1 m.2.2) := hexToRGB_inRange _ _ _
  have hspec := capLightness_spec (HexToRGB m.1 m.2.1 m.2.2) hin (1/2) 1
    (by norm_num) (by norm_num) le_rfl
  by_cases hL : ((HexToRGB m.1 m.2.1 m.2.2).HSL).L < 1/2
  · rw [hspec.1 hL]
  · push_neg at hL
    have hle : ((HexToRGB m.1 m.2.1 m.2.2).HSL).L ≤ 1 := by
      rw [HSL_L_eq]
      exact (rgbL_mem _ hin).2
    rw [hspec.2.2 hL hle]
    exact hL

/-- C6: for every input, the HTML renderer's output is the substituted body
followed by exactly one `</span>` per matched directive (one per `^n` match
plus one per `^xrgb` match), all appended at the very end; the body never
contains `"</span>"`, so no closing tag appears mid-string; and every
hex-directive color is the `HexToRGB` color passed through
`CapLightness(0.5, 1.0)` before rendering, so its lightness is at least `0.5`
(the basic `^n` palette spans are the fixed `decimalSpan` strings, not
capped). -/
theorem html_spec :
    (∀ s : QStr, QStr.HTML s = htmlBody s ++
      (List.replicate
        ((findAllDec (htmlEscaped s)).length +
          (findAllHex (htmlAfterDec s)).length)
        ("</span>".data)).join) ∧
    (∀ s : QStr, ¬ ∃ u w, htmlBody s = u ++ "</span>".data ++ w) ∧
    (∀ m : Char × Char × Char,
      hexSpanColor m = (HexToRGB m.1 m.2.1 m.2.2).CapLightness (1/2) 1 ∧
      1/2 ≤ ((hexSpanColor m).HSL).L) :=
  ⟨fun _ => rfl, htmlBody_no_close, fun m => ⟨rfl, hexSpanColor_lightness m⟩⟩
